import Mathlib

/-!
Verification of the fashbot usernotes system: a shallow embedding of the
merge engine in `usernote_archiver.py` (`UsernoteArchiver.archive_usernotes`)
and of the note renderer in `fashbot.py` (`FashBot.get_usernotes`,
`FashBot.handle_comment`), with theorems settling the spec's claims.
-/

namespace Fashbot

/-- A single usernote, with the field names of the persisted JSON:
`m` moderator index, `t` timestamp (seconds UTC), `w` warning index,
`n` note text, `l` compact link token. -/
structure Note where
  m : Int
  t : Int
  w : Int
  n : String
  l : String
deriving DecidableEq, Repr

/-- The `constants` object of a notes document: `users` is the moderators
list, `warnings` the warning-reason list (JSON field names kept). -/
structure Constants where
  users : List String
  warnings : List String
deriving DecidableEq, Repr

/-- A value stored under a username key in the decoded `blob` mapping.
In well-formed documents it is the object `{"ns": [...]}`; the archiver's
new-user branch (`archived_usernotes["blob"][user] = user`, line 80) can
also store a bare string, so the dynamic value is modelled as a sum. -/
inductive BlobVal where
  | notes (ns : List Note)
  | str (s : String)
deriving DecidableEq, Repr

/-- A decoded usernotes document: version, constants, and the per-user blob.
The blob is an insertion-ordered association list, modelling a Python dict. -/
structure NotesDoc where
  ver : Int
  constants : Constants
  blob : List (String × BlobVal)
deriving DecidableEq, Repr

/-- Failure modes of `archive_usernotes`: the version assert (line 45),
the constants asserts (lines 52/61), and the `TypeError` raised when
`["ns"]` is taken on a string blob value (lines 69/71). -/
inductive MergeError where
  | versionMismatch
  | constantsDrift
  | typeError
deriving DecidableEq, Repr

/-- Failure modes of rendering: `IndexError` from resolving a moderator or
warning index, and `UnboundLocalError` from reading `note_link` before any
branch of the link derivation assigned it. -/
inductive RenderError where
  | indexError
  | unboundLocalError
deriving DecidableEq, Repr

/-- Lookup in an insertion-ordered association list (Python dict read):
first binding of the key wins. -/
def alookup {β : Type} : List (String × β) → String → Option β
  | [], _ => none
  | (k, v) :: rest, key => if k = key then some v else alookup rest key

/-- Assignment in an insertion-ordered association list (Python
`d[key] = v`): replace the value in place if the key is present,
otherwise append the new binding at the end. -/
def aset {β : Type} : List (String × β) → String → β → List (String × β)
  | [], key, v => [(key, v)]
  | (k, v') :: rest, key, v =>
    if k = key then (k, v) :: rest else (k, v') :: aset rest key v

/-- The per-user notes loop of `archive_usernotes` (lines 69-77): for each
remote note in order, scan the current archived sequence for an equal
timestamp `t`; append the remote note when none matches. The scan is over
the growing list, so notes appended earlier in the same merge also count. -/
def updateNotes : List Note → List Note → List Note
  | ns, [] => ns
  | ns, note :: rest =>
    if ns.any (fun an => an.t == note.t) then updateNotes ns rest
    else updateNotes (ns ++ [note]) rest

/-- The constants reconciliation loop of `archive_usernotes` (lines 48-55
for `users`, 58-64 for `warnings`): walk the remote list with its index;
an index past the end of the archive list (`IndexError`) appends the remote
entry, an in-range index must compare equal or the assert fails. -/
def constantsLoop : List String → Nat → List String → Except MergeError (List String)
  | arch, _, [] => .ok arch
  | arch, idx, x :: rest =>
    match arch.get? idx with
    | some y => if x = y then constantsLoop arch (idx + 1) rest else .error .constantsDrift
    | none => constantsLoop (arch ++ [x]) (idx + 1) rest

/-- One iteration of the user loop (lines 67-80) on the archive blob.
If the user exists in the archive, the remote value's `"ns"` is read
(`TypeError` when the remote value is a string), then the archived value's
`"ns"` is read once per remote note (`TypeError` when the archived value is
a string and there is at least one remote note); otherwise the notes loop
runs. A user absent from the archive gets `archived["blob"][user] = user`:
the username string itself is stored (source line 80). -/
def stepUser : List (String × BlobVal) → String × BlobVal → Except MergeError (List (String × BlobVal))
  | arch, (user, rval) =>
    match alookup arch user with
    | some av =>
      match rval with
      | .str _ => .error .typeError
      | .notes rs =>
        match av with
        | .notes ns => .ok (aset arch user (.notes (updateNotes ns rs)))
        | .str _ => if rs.isEmpty then .ok arch else .error .typeError
    | none => .ok (aset arch user (.str user))

/-- The full user loop (lines 67-80): fold `stepUser` over the remote blob
in insertion order, stopping at the first error. -/
def updateBlob : List (String × BlobVal) → List (String × BlobVal) → Except MergeError (List (String × BlobVal))
  | arch, [] => .ok arch
  | arch, e :: rest =>
    match stepUser arch e with
    | .error err => .error err
    | .ok arch' => updateBlob arch' rest

/-- The merge of `UsernoteArchiver.archive_usernotes` (lines 44-80) as a
pure function from the remote document and the loaded archive document to
the updated archive document: version assert, then the two constants
loops, then the user loop. -/
def archive_usernotes (remote archive : NotesDoc) : Except MergeError NotesDoc :=
  if archive.ver = remote.ver then
    match constantsLoop archive.constants.users 0 remote.constants.users with
    | .error e => .error e
    | .ok users =>
      match constantsLoop archive.constants.warnings 0 remote.constants.warnings with
      | .error e => .error e
      | .ok warnings =>
        match updateBlob archive.blob remote.blob with
        | .error e => .error e
        | .ok blob => .ok { ver := archive.ver, constants := { users := users, warnings := warnings }, blob := blob }
  else .error .versionMismatch

/-- One archive cycle over the persisted store (lines 34-84): load the
stored archive, merge, and write the result back only when the merge
succeeded in full; any raised error leaves the stored file untouched. -/
def runArchiveCycle (remote stored : NotesDoc) : NotesDoc :=
  match archive_usernotes remote stored with
  | .ok merged => merged
  | .error _ => stored

/-- Python list indexing `xs[i]` on a list of strings: a negative index
counts from the end; an index out of range on both sides is `IndexError`,
modelled as `none`. -/
def pyIndex (xs : List String) (i : Int) : Option String :=
  let j := if i < 0 then (xs.length : Int) + i else i
  if 0 ≤ j ∧ j < (xs.length : Int) then xs.get? j.toNat else none

/-- Python `s.split(",")` over the character sequence: fields between
commas, so `""` gives `[""]` and `"a,,b"` gives `["a", "", "b"]`. -/
def splitCommaAux : List Char → String → List String
  | [], cur => [cur]
  | c :: rest, cur =>
    if c = ',' then cur :: splitCommaAux rest ""
    else splitCommaAux rest (cur.push c)

/-- Python `s.split(",")`. -/
def pySplit (s : String) : List String := splitCommaAux s.data ""

/-- The submission permalink built at `fashbot.py` lines 151-153. -/
def submissionLink (sub thread_id : String) : String :=
  s!"https://reddit.com/r/{sub}/comments/{thread_id}"

/-- The comment permalink built at `fashbot.py` lines 159-162. -/
def commentLink (sub thread_id comment_id : String) : String :=
  s!"https://reddit.com/r/{sub}/comments/{thread_id}/_/{comment_id}"

/-- The table row with a linked timestamp (`fashbot.py` lines 164-167). -/
def linkedRow (note_mod note_time link note_reason note_text : String) : String :=
  s!"{note_mod} | [{note_time}]({link}) | {note_reason} | {note_text}"

/-- The table row with a bare timestamp (`fashbot.py` lines 169-172). -/
def bareRow (note_mod note_time note_reason note_text : String) : String :=
  s!"{note_mod} | {note_time} | {note_reason} | {note_text}"

/-- The loop body of `FashBot.get_usernotes` (lines 135-172) for one note.
`prevLink` is the value of the local variable `note_link` left over from
earlier iterations (`none` before any assignment). Timestamp formatting
(`time.strftime` of `time.localtime`) is injected as `fmt`. Returns the
formatted row and the value of `note_link` after this iteration. -/
def formatNote (cts : Constants) (sub : String) (fmt : Int → String)
    (prevLink : Option String) (note : Note) : Except RenderError (String × Option String) :=
  match pyIndex cts.users note.m with
  | none => .error .indexError
  | some note_mod =>
    match pyIndex cts.warnings note.w with
    | none => .error .indexError
    | some note_reason =>
      let note_time := fmt note.t
      let note_text := note.n
      let note_link : Option String :=
        match pySplit note.l with
        | [_] => some ""
        | [_, thread_id] => some (submissionLink sub thread_id)
        | [_, thread_id, comment_id] => some (commentLink sub thread_id comment_id)
        | _ => prevLink
      match note_link with
      | none => .error .unboundLocalError
      | some link =>
        if link = "" then .ok (bareRow note_mod note_time note_reason note_text, some link)
        else .ok (linkedRow note_mod note_time link note_reason note_text, some link)

/-- The row-building loop of `FashBot.get_usernotes` (lines 135-172):
fold `formatNote` over the user's notes, threading the `note_link`
variable and accumulating the formatted rows. -/
def rowsLoop (cts : Constants) (sub : String) (fmt : Int → String) :
    List String → Option String → List Note → Except RenderError (List String)
  | acc, _, [] => .ok acc
  | acc, prev, note :: rest =>
    match formatNote cts sub fmt prev note with
    | .error e => .error e
    | .ok (row, link) => rowsLoop cts sub fmt (acc ++ [row]) link rest

/-- `FashBot.get_usernotes` (lines 124-176) as a pure function of the
decoded constants and notes mapping: build one row per note of the
requested user (no rows when the user is absent), prepend the header when
at least one row exists, and join with newlines. An absent user or an
empty note sequence therefore yields the empty string. -/
def get_usernotes (cts : Constants) (notes : List (String × List Note))
    (sub : String) (fmt : Int → String) (user : String) : Except RenderError String :=
  match alookup notes user with
  | none => .ok (String.intercalate "\n" [])
  | some ns =>
    match rowsLoop cts sub fmt [] none ns with
    | .error e => .error e
    | .ok rows =>
      .ok (String.intercalate "\n"
        (if rows.isEmpty then rows
         else "Mod | Time | Reason | Note" :: "- | - | - | - | -" :: rows))

/-- The message body computed by `FashBot.handle_comment` (lines 88-91):
the rendered notes, with a falsy (empty) render result replaced by the
literal `"No usernotes"`. -/
def handle_comment_body (cts : Constants) (notes : List (String × List Note))
    (sub : String) (fmt : Int → String) (user : String) : Except RenderError String :=
  match get_usernotes cts notes sub fmt user with
  | .error e => .error e
  | .ok s => .ok (if s = "" then "No usernotes" else s)

/-- Specification-side characterization of the notes appended by the merge
for a user present in both documents: a remote note is kept iff its
timestamp differs from every note of the archived sequence *as grown by the
earlier kept notes*; kept notes appear in remote order. -/
def dedupNew : List Note → List Note → List Note
  | _, [] => []
  | ns, note :: rest =>
    if ns.any (fun an => an.t == note.t) then dedupNew ns rest
    else note :: dedupNew (ns ++ [note]) rest

/-! ### Concrete example documents used by witnesses and counterexamples -/

/-- A remote note for user bob. -/
def exNote : Note := ⟨0, 100, 0, "hi", "0"⟩

/-- Remote document containing a user (bob) absent from the archive. -/
def exRemote : NotesDoc := ⟨6, ⟨["mod1"], ["w1"]⟩, [("bob", .notes [exNote])]⟩

/-- Archive document without bob. -/
def exArchive : NotesDoc := ⟨6, ⟨["mod1"], ["w1"]⟩, []⟩

/-- What the merge of `exRemote` into `exArchive` actually produces:
bob's entry is the string `"bob"`, not his notes. -/
def exMerged : NotesDoc := ⟨6, ⟨["mod1"], ["w1"]⟩, [("bob", .str "bob")]⟩

/-- Archived note of alice at timestamp 100. -/
def n100 : Note := ⟨0, 100, 0, "a", "0"⟩

/-- First remote note of alice at timestamp 300. -/
def n300x : Note := ⟨0, 300, 0, "x", "0"⟩

/-- Second remote note of alice, at the same timestamp 300 but with
different text. -/
def n300y : Note := ⟨0, 300, 0, "y", "0"⟩

/-- Remote document whose alice sequence holds two distinct notes sharing
timestamp 300. -/
def dupRemote : NotesDoc := ⟨6, ⟨["m"], ["w"]⟩, [("alice", .notes [n300x, n300y])]⟩

/-- Archive document with alice at timestamp 100 only. -/
def dupArchive : NotesDoc := ⟨6, ⟨["m"], ["w"]⟩, [("alice", .notes [n100])]⟩

/-- Archived alice note at timestamp 100. -/
def nt100 : Note := ⟨0, 100, 0, "a100", "0"⟩

/-- Archived alice note at timestamp 200. -/
def nt200 : Note := ⟨0, 200, 0, "a200", "0"⟩

/-- Remote alice note at timestamp 200 (duplicate of the archived one). -/
def nt200r : Note := ⟨0, 200, 0, "r200", "0"⟩

/-- Remote alice note at timestamp 300 (new). -/
def nt300 : Note := ⟨0, 300, 0, "r300", "0"⟩

/-- Archive with alice at timestamps 100 and 200 (the spec's dedup example). -/
def tsArchive : NotesDoc := ⟨6, ⟨["m"], ["w"]⟩, [("alice", .notes [nt100, nt200])]⟩

/-- Remote with alice at timestamps 200 and 300 (the spec's dedup example). -/
def tsRemote : NotesDoc := ⟨6, ⟨["m"], ["w"]⟩, [("alice", .notes [nt200r, nt300])]⟩

/-- Merge result of the spec's dedup example: alice at 100, 200, 300. -/
def tsMerged : NotesDoc := ⟨6, ⟨["m"], ["w"]⟩, [("alice", .notes [nt100, nt200, nt300])]⟩

/-- Remote document extending the moderators list. -/
def cstRemote : NotesDoc := ⟨6, ⟨["m", "m2"], ["w"]⟩, []⟩

/-- Archive document extending the warnings list. -/
def cstArchive : NotesDoc := ⟨6, ⟨["m"], ["w", "w2"]⟩, []⟩

/-- Merge result with both constants lists extended. -/
def cstMerged : NotesDoc := ⟨6, ⟨["m", "m2"], ["w", "w2"]⟩, []⟩

/-- A one-moderator, one-warning constants table for render examples. -/
def exCts : Constants := ⟨["m"], ["w"]⟩

/-- A concrete injected timestamp formatter for render examples. -/
def exFmt : Int → String := fun t => toString t

/-! ### Association list lemmas -/

theorem alookup_aset_self {β : Type} (l : List (String × β)) (k : String) (v : β) :
    alookup (aset l k v) k = some v := by
  induction l with
  | nil => simp [aset, alookup]
  | cons e rest ih =>
    obtain ⟨k', v'⟩ := e
    by_cases h : k' = k
    · subst h; simp [aset, alookup]
    · simp [aset, alookup, h, ih]

theorem alookup_aset_ne {β : Type} (l : List (String × β)) (k : String) (v : β)
    (k' : String) (h : k' ≠ k) : alookup (aset l k v) k' = alookup l k' := by
  induction l with
  | nil => simp [aset, alookup, Ne.symm h]
  | cons e rest ih =>
    obtain ⟨k0, v0⟩ := e
    by_cases h0 : k0 = k
    · subst h0
      simp [aset, alookup, Ne.symm h]
    · simp [aset, alookup, h0, ih]

theorem alookup_split {β : Type} : ∀ (l : List (String × β)) (u : String) (v : β),
    alookup l u = some v →
    ∃ pre post, l = pre ++ (u, v) :: post ∧ u ∉ pre.map Prod.fst := by
  intro l
  induction l with
  | nil => intro u v h; simp [alookup] at h
  | cons e rest ih =>
    intro u v h
    obtain ⟨k, w⟩ := e
    by_cases hk : k = u
    · subst hk
      simp [alookup] at h
      exact ⟨[], rest, by simp [h], by simp⟩
    · rw [alookup, if_neg hk] at h
      obtain ⟨pre, post, hl, hpre⟩ := ih u v h
      refine ⟨(k, w) :: pre, post, by simp [hl], ?_⟩
      simp [hpre, Ne.symm hk]

/-! ### Notes loop lemmas -/

theorem updateNotes_eq_dedup (rs : List Note) : ∀ ns : List Note,
    updateNotes ns rs = ns ++ dedupNew ns rs := by
  induction rs with
  | nil => intro ns; simp [updateNotes, dedupNew]
  | cons note rest ih =>
    intro ns
    by_cases h : ns.any (fun an => an.t == note.t)
    · simp [updateNotes, dedupNew, h, ih ns]
    · simp [updateNotes, dedupNew, h, ih (ns ++ [note])]

/-! ### Constants loop lemmas -/

theorem constantsLoop_ok_append : ∀ (rem arch : List String) (idx : Nat) (res : List String),
    constantsLoop arch idx rem = .ok res → ∃ ext, res = arch ++ ext := by
  intro rem
  induction rem with
  | nil =>
    intro arch idx res h
    simp [constantsLoop] at h
    exact ⟨[], by simp [h.symm]⟩
  | cons x rest ih =>
    intro arch idx res h
    cases hg : arch.get? idx with
    | some y =>
      simp only [constantsLoop, hg] at h
      by_cases hxy : x = y
      · rw [if_pos hxy] at h
        exact ih arch (idx + 1) res h
      · rw [if_neg hxy] at h; simp at h
    | none =>
      simp only [constantsLoop, hg] at h
      obtain ⟨ext, he⟩ := ih (arch ++ [x]) (idx + 1) res h
      exact ⟨x :: ext, by simp [he]⟩

theorem constantsLoop_error_drift : ∀ (rem arch : List String) (idx : Nat) (e : MergeError),
    constantsLoop arch idx rem = .error e → e = .constantsDrift := by
  intro rem
  induction rem with
  | nil => intro arch idx e h; simp [constantsLoop] at h
  | cons x rest ih =>
    intro arch idx e h
    cases hg : arch.get? idx with
    | some y =>
      simp only [constantsLoop, hg] at h
      by_cases hxy : x = y
      · rw [if_pos hxy] at h; exact ih arch (idx + 1) e h
      · rw [if_neg hxy] at h; simpa using h.symm
    | none =>
      simp only [constantsLoop, hg] at h
      exact ih (arch ++ [x]) (idx + 1) e h

theorem constantsLoop_drift : ∀ (rem arch : List String) (idx : Nat),
    (∃ j a b, arch.get? (idx + j) = some a ∧ rem.get? j = some b ∧ a ≠ b) →
    constantsLoop arch idx rem = .error .constantsDrift := by
  intro rem
  induction rem with
  | nil =>
    rintro arch idx ⟨j, a, b, _, hb, _⟩
    simp at hb
  | cons x rest ih =>
    rintro arch idx ⟨j, a, b, ha, hb, hab⟩
    cases j with
    | zero =>
      rw [Nat.add_zero] at ha
      simp at hb
      simp only [constantsLoop, ha]
      rw [if_neg (by rw [hb]; exact Ne.symm hab)]
    | succ j' =>
      cases hg : arch.get? idx with
      | some y =>
        have hrec : constantsLoop arch (idx + 1) rest = .error .constantsDrift := by
          refine ih arch (idx + 1) ⟨j', a, b, ?_, by simpa using hb, hab⟩
          rw [← ha]; congr 1; omega
        simp only [constantsLoop, hg]
        by_cases hxy : x = y
        · rw [if_pos hxy]; exact hrec
        · rw [if_neg hxy]
      | none =>
        exfalso
        have hlen : arch.length ≤ idx := List.get?_eq_none.mp hg
        have hnone : arch.get? (idx + (j' + 1)) = none := List.get?_eq_none.mpr (by omega)
        rw [hnone] at ha
        exact absurd ha (by simp)

theorem constantsLoop_agree_ok : ∀ (rem arch : List String) (idx : Nat),
    (∀ j a b, arch.get? (idx + j) = some a → rem.get? j = some b → a = b) →
    ∃ res, constantsLoop arch idx rem = .ok res := by
  intro rem
  induction rem with
  | nil => intro arch idx _; exact ⟨arch, rfl⟩
  | cons x rest ih =>
    intro arch idx hagree
    cases hg : arch.get? idx with
    | some y =>
      have hxy : x = y :=
        (hagree 0 y x (by simpa using hg) (by simp)).symm
      obtain ⟨res, hres⟩ := ih arch (idx + 1)
        (fun j a b ha hb => hagree (j + 1) a b (by rw [← ha]; congr 1; omega) (by simpa using hb))
      exact ⟨res, by simp only [constantsLoop, hg]; rw [if_pos hxy]; exact hres⟩
    | none =>
      have hlen : arch.length ≤ idx := List.get?_eq_none.mp hg
      obtain ⟨res, hres⟩ := ih (arch ++ [x]) (idx + 1)
        (fun j a b ha hb => by
          exfalso
          have hnone : (arch ++ [x]).get? (idx + 1 + j) = none :=
            List.get?_eq_none.mpr (by simp; omega)
          rw [hnone] at ha
          exact absurd ha (by simp))
      exact ⟨res, by simp only [constantsLoop, hg]; exact hres⟩

/-! ### User loop lemmas -/

theorem stepUser_mono {arch arch' : List (String × BlobVal)} {e : String × BlobVal}
    {u : String} {ns : List Note}
    (hs : stepUser arch e = .ok arch') (hu : alookup arch u = some (.notes ns)) :
    ∃ ext, alookup arch' u = some (.notes (ns ++ ext)) := by
  obtain ⟨user, rval⟩ := e
  by_cases he : user = u
  · subst he
    simp only [stepUser, hu] at hs
    cases rval with
    | str s => simp at hs
    | notes rs =>
      simp only [Except.ok.injEq] at hs
      subst hs
      refine ⟨dedupNew ns rs, ?_⟩
      rw [alookup_aset_self, updateNotes_eq_dedup]
  · refine ⟨[], ?_⟩
    rw [List.append_nil]
    cases ha : alookup arch user with
    | none =>
      simp only [stepUser, ha, Except.ok.injEq] at hs
      subst hs
      rw [alookup_aset_ne _ _ _ _ (Ne.symm he)]
      exact hu
    | some av =>
      cases rval with
      | str s => simp [stepUser, ha] at hs
      | notes rs =>
        cases av with
        | notes ns0 =>
          simp only [stepUser, ha, Except.ok.injEq] at hs
          subst hs
          rw [alookup_aset_ne _ _ _ _ (Ne.symm he)]
          exact hu
        | str s0 =>
          simp only [stepUser, ha] at hs
          by_cases hrs : rs.isEmpty
          · rw [if_pos hrs] at hs
            simp only [Except.ok.injEq] at hs
            subst hs
            exact hu
          · rw [if_neg hrs] at hs
            simp at hs

theorem stepUser_ne {arch arch' : List (String × BlobVal)} {e : String × BlobVal}
    {u : String} (hne : e.1 ≠ u) (hs : stepUser arch e = .ok arch') :
    alookup arch' u = alookup arch u := by
  obtain ⟨user, rval⟩ := e
  simp only at hne
  cases ha : alookup arch user with
  | none =>
    simp only [stepUser, ha, Except.ok.injEq] at hs
    subst hs
    exact alookup_aset_ne _ _ _ _ (Ne.symm hne)
  | some av =>
    cases rval with
    | str s => simp [stepUser, ha] at hs
    | notes rs =>
      cases av with
      | notes ns0 =>
        simp only [stepUser, ha, Except.ok.injEq] at hs
        subst hs
        exact alookup_aset_ne _ _ _ _ (Ne.symm hne)
      | str s0 =>
        simp only [stepUser, ha] at hs
        by_cases hrs : rs.isEmpty
        · rw [if_pos hrs] at hs
          simp only [Except.ok.injEq] at hs
          subst hs
          rfl
        · rw [if_neg hrs] at hs
          simp at hs

theorem updateBlob_mono : ∀ (rem arch res : List (String × BlobVal)) (u : String) (ns : List Note),
    updateBlob arch rem = .ok res → alookup arch u = some (.notes ns) →
    ∃ ext, alookup res u = some (.notes (ns ++ ext)) := by
  intro rem
  induction rem with
  | nil =>
    intro arch res u ns h hu
    simp only [updateBlob, Except.ok.injEq] at h
    subst h
    exact ⟨[], by simpa using hu⟩
  | cons e rest ih =>
    intro arch res u ns h hu
    cases hs : stepUser arch e with
    | error err => simp only [updateBlob, hs] at h; exact absurd h (by simp)
    | ok arch' =>
      simp only [updateBlob, hs] at h
      obtain ⟨e1, h1⟩ := stepUser_mono hs hu
      obtain ⟨e2, h2⟩ := ih arch' res u (ns ++ e1) h h1
      exact ⟨e1 ++ e2, by simpa [List.append_assoc] using h2⟩

theorem updateBlob_keyFixed : ∀ (rem arch res : List (String × BlobVal)) (u : String),
    updateBlob arch rem = .ok res → u ∉ rem.map Prod.fst →
    alookup res u = alookup arch u := by
  intro rem
  induction rem with
  | nil =>
    intro arch res u h _
    simp only [updateBlob, Except.ok.injEq] at h
    subst h
    rfl
  | cons e rest ih =>
    intro arch res u h hmem
    cases hs : stepUser arch e with
    | error err => simp only [updateBlob, hs] at h; exact absurd h (by simp)
    | ok arch' =>
      simp only [updateBlob, hs] at h
      have hne : e.1 ≠ u := by
        intro hh
        exact hmem (by simp [← hh])
      have hrest : u ∉ rest.map Prod.fst := fun hh => hmem (by simp [hh])
      rw [ih arch' res u h hrest]
      exact stepUser_ne hne hs

theorem updateBlob_found : ∀ (pre post arch res : List (String × BlobVal))
    (u : String) (rs ns : List Note),
    u ∉ pre.map Prod.fst → u ∉ post.map Prod.fst →
    alookup arch u = some (.notes ns) →
    updateBlob arch (pre ++ (u, .notes rs) :: post) = .ok res →
    alookup res u = some (.notes (updateNotes ns rs)) := by
  intro pre
  induction pre with
  | nil =>
    intro post arch res u rs ns _ hpost hu h
    rw [List.nil_append] at h
    have hstep : stepUser arch (u, .notes rs) =
        .ok (aset arch u (.notes (updateNotes ns rs))) := by
      simp [stepUser, hu]
    simp only [updateBlob, hstep] at h
    rw [updateBlob_keyFixed post _ res u h hpost]
    exact alookup_aset_self _ _ _
  | cons e pre' ih =>
    intro post arch res u rs ns hpre hpost hu h
    rw [List.cons_append] at h
    cases hs : stepUser arch e with
    | error err => simp only [updateBlob, hs] at h; exact absurd h (by simp)
    | ok arch' =>
      simp only [updateBlob, hs] at h
      have hne : e.1 ≠ u := by
        intro hh
        exact hpre (by simp [← hh])
      have hpre' : u ∉ pre'.map Prod.fst := fun hh => hpre (by simp [hh])
      have hu' : alookup arch' u = some (.notes ns) := by
        rw [stepUser_ne hne hs]; exact hu
      exact ih post arch' res u rs ns hpre' hpost hu' h

/-! ### Merge inversion and cycle lemmas -/

theorem merge_ok_inv {remote archive res : NotesDoc}
    (h : archive_usernotes remote archive = .ok res) :
    archive.ver = remote.ver ∧
    ∃ us ws blob,
      constantsLoop archive.constants.users 0 remote.constants.users = .ok us ∧
      constantsLoop archive.constants.warnings 0 remote.constants.warnings = .ok ws ∧
      updateBlob archive.blob remote.blob = .ok blob ∧
      res = ⟨archive.ver, ⟨us, ws⟩, blob⟩ := by
  unfold archive_usernotes at h
  by_cases hv : archive.ver = remote.ver
  · rw [if_pos hv] at h
    cases hcu : constantsLoop archive.constants.users 0 remote.constants.users with
    | error e => rw [hcu] at h; simp at h
    | ok us =>
      rw [hcu] at h
      cases hcw : constantsLoop archive.constants.warnings 0 remote.constants.warnings with
      | error e => rw [hcw] at h; simp at h
      | ok ws =>
        rw [hcw] at h
        cases hub : updateBlob archive.blob remote.blob with
        | error e => rw [hub] at h; simp at h
        | ok blob =>
          rw [hub] at h
          simp only [Except.ok.injEq] at h
          refine ⟨hv, us, ws, blob, ?_, ?_, ?_, ?_⟩
          · rfl
          · rfl
          · rfl
          · exact h.symm
  · rw [if_neg hv] at h
    simp at h

theorem runArchiveCycle_of_error {remote stored : NotesDoc} {e : MergeError}
    (h : archive_usernotes remote stored = .error e) :
    runArchiveCycle remote stored = stored := by
  unfold runArchiveCycle
  rw [h]

/-! ### String helper -/

theorem eq_empty_of_length_zero {s : String} (h : s.length = 0) : s = "" := by
  cases s with
  | mk data =>
    simp only [String.length] at h
    rw [List.length_eq_zero] at h
    simp [h]

theorem append_ne_empty_left (s t : String) (hs : s ≠ "") : s ++ t ≠ "" := by
  intro he
  apply hs
  have hl := congrArg String.length he
  rw [String.length_append] at hl
  simp at hl
  exact eq_empty_of_length_zero hl.1

theorem submissionLink_ne_empty (sub thread_id : String) :
    submissionLink sub thread_id ≠ "" := by
  unfold submissionLink
  repeat refine append_ne_empty_left _ _ ?_
  decide

theorem commentLink_ne_empty (sub thread_id comment_id : String) :
    commentLink sub thread_id comment_id ≠ "" := by
  unfold commentLink
  repeat refine append_ne_empty_left _ _ ?_
  decide

/-! ### Claim theorems -/

/-- Claim C1: the spec requires a user new to the archive to be inserted
with the full remote note sequence; the code instead executes
`archived_usernotes["blob"][user] = user` and stores the username string.
At the concrete input, bob's entry in the merge result is the string
`"bob"`, not his remote notes. -/
theorem c1_new_user_inserted_as_username_string :
    archive_usernotes exRemote exArchive = .ok exMerged ∧
    alookup exMerged.blob "bob" = some (.str "bob") ∧
    some (BlobVal.str "bob") ≠ some (BlobVal.notes [exNote]) := by
  refine ⟨rfl, rfl, by decide⟩

/-- Claim C3: re-merging the same remote is claimed to be a no-op on any
input where the first merge succeeds. At the concrete input the first
merge succeeds (storing bob as a string, see C1) and the second merge
raises `TypeError` when it indexes that string with `"ns"`, so
`merge(remote, merge(remote, archive))` is not `merge(remote, archive)`. -/
theorem c3_remerge_after_new_user_raises :
    archive_usernotes exRemote exArchive = .ok exMerged ∧
    archive_usernotes exRemote exMerged = .error .typeError := by
  refine ⟨rfl, rfl⟩

/-- Claim C4: whenever the version fields differ, the merge fails with the
version-mismatch error (the line-45 assert) before touching anything, and
the archive cycle leaves the stored archive unchanged. -/
theorem c4_version_mismatch_unchanged (remote archive : NotesDoc)
    (hv : archive.ver ≠ remote.ver) :
    archive_usernotes remote archive = .error .versionMismatch ∧
    runArchiveCycle remote archive = archive := by
  have h1 : archive_usernotes remote archive = .error .versionMismatch := by
    unfold archive_usernotes
    rw [if_neg hv]
  exact ⟨h1, runArchiveCycle_of_error h1⟩

/-- Claim C4 witness: version 1 archive against version 2 remote. -/
theorem c4_version_mismatch_witness :
    (⟨1, ⟨[], []⟩, []⟩ : NotesDoc).ver ≠ (⟨2, ⟨[], []⟩, []⟩ : NotesDoc).ver ∧
    (archive_usernotes ⟨2, ⟨[], []⟩, []⟩ ⟨1, ⟨[], []⟩, []⟩ = .error .versionMismatch ∧
     runArchiveCycle ⟨2, ⟨[], []⟩, []⟩ ⟨1, ⟨[], []⟩, []⟩ = ⟨1, ⟨[], []⟩, []⟩) :=
  ⟨by decide, c4_version_mismatch_unchanged ⟨2, ⟨[], []⟩, []⟩ ⟨1, ⟨[], []⟩, []⟩ (by decide)⟩

/-- Claim C5: when the moderators or warnings lists disagree at an index in
range in both documents, the merge fails and the cycle persists nothing;
when additionally the version precondition passes (the check that runs
first), the failure is specifically the constants-drift assert. -/
theorem c5_constants_drift_not_persisted (remote archive : NotesDoc)
    (hd : (∃ i a b, archive.constants.users.get? i = some a ∧
             remote.constants.users.get? i = some b ∧ a ≠ b) ∨
          (∃ i a b, archive.constants.warnings.get? i = some a ∧
             remote.constants.warnings.get? i = some b ∧ a ≠ b)) :
    (∃ e, archive_usernotes remote archive = .error e) ∧
    runArchiveCycle remote archive = archive ∧
    (archive.ver = remote.ver →
      archive_usernotes remote archive = .error .constantsDrift) := by
  have hdrift : archive.ver = remote.ver →
      archive_usernotes remote archive = .error .constantsDrift := by
    intro hv
    rcases hd with ⟨i, a, b, ha, hb, hab⟩ | ⟨i, a, b, ha, hb, hab⟩
    · have hu : constantsLoop archive.constants.users 0 remote.constants.users =
          .error .constantsDrift :=
        constantsLoop_drift _ _ 0 ⟨i, a, b, by simpa using ha, hb, hab⟩
      unfold archive_usernotes
      rw [if_pos hv]
      simp [hu]
    · have hw : constantsLoop archive.constants.warnings 0 remote.constants.warnings =
          .error .constantsDrift :=
        constantsLoop_drift _ _ 0 ⟨i, a, b, by simpa using ha, hb, hab⟩
      unfold archive_usernotes
      rw [if_pos hv]
      cases hcu : constantsLoop archive.constants.users 0 remote.constants.users with
      | error e =>
        have he : e = .constantsDrift := constantsLoop_error_drift _ _ _ _ hcu
        simp [hcu, he]
      | ok us => simp [hcu, hw]
  by_cases hv : archive.ver = remote.ver
  · have h1 := hdrift hv
    exact ⟨⟨_, h1⟩, runArchiveCycle_of_error h1, hdrift⟩
  · have h1 : archive_usernotes remote archive = .error .versionMismatch := by
      unfold archive_usernotes
      rw [if_neg hv]
    exact ⟨⟨_, h1⟩, runArchiveCycle_of_error h1, hdrift⟩

/-- Remote document for the C5 witness: same version, drifted moderator. -/
def driftRemote : NotesDoc := ⟨1, ⟨["alice"], []⟩, []⟩

/-- Archive document for the C5 witness. -/
def driftArchive : NotesDoc := ⟨1, ⟨["bob"], []⟩, []⟩

/-- Claim C5 witness: moderators disagree at index 0 with equal versions,
so the merge fails with constants drift and the cycle changes nothing. -/
theorem c5_constants_drift_witness :
    ((∃ i a b, driftArchive.constants.users.get? i = some a ∧
        driftRemote.constants.users.get? i = some b ∧ a ≠ b) ∨
     (∃ i a b, driftArchive.constants.warnings.get? i = some a ∧
        driftRemote.constants.warnings.get? i = some b ∧ a ≠ b)) ∧
    ((∃ e, archive_usernotes driftRemote driftArchive = .error e) ∧
     runArchiveCycle driftRemote driftArchive = driftArchive ∧
     (driftArchive.ver = driftRemote.ver →
       archive_usernotes driftRemote driftArchive = .error .constantsDrift)) :=
  ⟨Or.inl ⟨0, "bob", "alice", rfl, rfl, by decide⟩,
   c5_constants_drift_not_persisted driftRemote driftArchive
     (Or.inl ⟨0, "bob", "alice", rfl, rfl, by decide⟩)⟩

/-- Result of merging `dupRemote` into `dupArchive`: only the first of the
two remote notes at timestamp 300 is appended. -/
def dupMerged : NotesDoc := ⟨6, ⟨["m"], ["w"]⟩, [("alice", .notes [n100, n300x])]⟩

/-- Claim C6 counterexample: the claim reads "appends exactly those remote
notes whose timestampUtc matches no existing archived note", i.e. alice's
result should be the archived notes followed by the remote notes filtered
against the pre-merge archive. With two remote notes at the same fresh
timestamp 300, that filter keeps both, but the code deduplicates against
the growing list and drops the second, so the result differs from the
claimed one. -/
theorem c6_dedup_counterexample :
    archive_usernotes dupRemote dupArchive = .ok dupMerged ∧
    alookup dupMerged.blob "alice" ≠
      some (.notes ([n100] ++
        ([n300x, n300y].filter fun nn => !([n100].any fun an => an.t == nn.t)))) := by
  refine ⟨rfl, by decide⟩

/-- Claim C6 (amended): for a user present in both documents, a successful
merge maps the user to the archived sequence followed by exactly those
remote notes, in remote order, whose timestamp matches no note of the
archived sequence as grown by the earlier appended remote notes
(`dedupNew`); a remote note duplicating an earlier appended remote note's
timestamp is also dropped. -/
theorem c6_dedup_by_timestamp (remote archive res : NotesDoc) (u : String)
    (ns rs : List Note)
    (hnd : (remote.blob.map Prod.fst).Nodup)
    (hok : archive_usernotes remote archive = .ok res)
    (ha : alookup archive.blob u = some (.notes ns))
    (hr : alookup remote.blob u = some (.notes rs)) :
    alookup res.blob u = some (.notes (ns ++ dedupNew ns rs)) := by
  obtain ⟨-, us, ws, blob, -, -, hub, hres⟩ := merge_ok_inv hok
  subst hres
  obtain ⟨pre, post, hsplit, hpre⟩ := alookup_split remote.blob u (.notes rs) hr
  have hpost : u ∉ post.map Prod.fst := by
    rw [hsplit, List.map_append, List.map_cons] at hnd
    exact (List.nodup_cons.mp hnd.of_append_right).1
  have hfound := updateBlob_found pre post archive.blob blob u rs ns hpre hpost ha
    (by rw [← hsplit]; exact hub)
  rw [updateNotes_eq_dedup] at hfound
  exact hfound

/-- Claim C6 witness: the spec's own example — archive alice at timestamps
100 and 200, remote alice at 200 and 300 — yields alice at 100, 200, 300
with no duplicate at 200. -/
theorem c6_dedup_witness :
    (tsRemote.blob.map Prod.fst).Nodup ∧
    archive_usernotes tsRemote tsArchive = .ok tsMerged ∧
    alookup tsArchive.blob "alice" = some (.notes [nt100, nt200]) ∧
    alookup tsRemote.blob "alice" = some (.notes [nt200r, nt300]) ∧
    alookup tsMerged.blob "alice" =
      some (.notes ([nt100, nt200] ++ dedupNew [nt100, nt200] [nt200r, nt300])) :=
  ⟨by decide, rfl, rfl, rfl,
   c6_dedup_by_timestamp tsRemote tsArchive tsMerged "alice" [nt100, nt200]
     [nt200r, nt300] (by decide) rfl rfl rfl⟩

/-- Claim C7: a successful merge keeps every pre-merge archived note of
every user, unmodified and in its original relative position — the user's
post-merge sequence is the pre-merge sequence extended on the right. -/
theorem c7_merge_monotonic (remote archive res : NotesDoc)
    (hok : archive_usernotes remote archive = .ok res)
    (u : String) (ns : List Note)
    (hu : alookup archive.blob u = some (.notes ns)) :
    ∃ ext, alookup res.blob u = some (.notes (ns ++ ext)) := by
  obtain ⟨-, us, ws, blob, -, -, hub, hres⟩ := merge_ok_inv hok
  subst hres
  exact updateBlob_mono _ _ _ _ _ hub hu

/-- Claim C7 witness: merging the timestamp example preserves alice's two
archived notes as a prefix of her merged sequence. -/
theorem c7_merge_monotonic_witness :
    archive_usernotes tsRemote tsArchive = .ok tsMerged ∧
    alookup tsArchive.blob "alice" = some (.notes [nt100, nt200]) ∧
    ∃ ext, alookup tsMerged.blob "alice" = some (.notes ([nt100, nt200] ++ ext)) :=
  ⟨rfl, rfl, c7_merge_monotonic tsRemote tsArchive tsMerged rfl "alice" [nt100, nt200] rfl⟩

/-- Claim C8: a successful merge only ever extends the moderators and
warnings lists at the end: the post-merge lists are the pre-merge lists
plus appended tails, and every index valid in a pre-merge list still holds
the same value afterwards. -/
theorem c8_constants_append_only (remote archive res : NotesDoc)
    (hok : archive_usernotes remote archive = .ok res) :
    (∃ e1, res.constants.users = archive.constants.users ++ e1) ∧
    (∃ e2, res.constants.warnings = archive.constants.warnings ++ e2) ∧
    (∀ i x, archive.constants.users.get? i = some x →
      res.constants.users.get? i = some x) ∧
    (∀ i x, archive.constants.warnings.get? i = some x →
      res.constants.warnings.get? i = some x) := by
  obtain ⟨-, us, ws, blob, hcu, hcw, -, hres⟩ := merge_ok_inv hok
  subst hres
  obtain ⟨e1, he1⟩ := constantsLoop_ok_append _ _ _ _ hcu
  obtain ⟨e2, he2⟩ := constantsLoop_ok_append _ _ _ _ hcw
  refine ⟨⟨e1, he1⟩, ⟨e2, he2⟩, ?_, ?_⟩
  · intro i x hx
    have hlt : i < archive.constants.users.length := by
      rcases List.get?_eq_some.mp hx with ⟨hl, -⟩
      exact hl
    show us.get? i = some x
    rw [he1, List.get?_append hlt]
    exact hx
  · intro i x hx
    have hlt : i < archive.constants.warnings.length := by
      rcases List.get?_eq_some.mp hx with ⟨hl, -⟩
      exact hl
    show ws.get? i = some x
    rw [he2, List.get?_append hlt]
    exact hx

/-- Claim C8 witness: the remote adds a moderator, the archive has an extra
warning; both lists in the result extend the archive's lists and keep
every archived index unchanged. -/
theorem c8_constants_append_witness :
    archive_usernotes cstRemote cstArchive = .ok cstMerged ∧
    ((∃ e1, cstMerged.constants.users = cstArchive.constants.users ++ e1) ∧
     (∃ e2, cstMerged.constants.warnings = cstArchive.constants.warnings ++ e2) ∧
     (∀ i x, cstArchive.constants.users.get? i = some x →
       cstMerged.constants.users.get? i = some x) ∧
     (∀ i x, cstArchive.constants.warnings.get? i = some x →
       cstMerged.constants.warnings.get? i = some x)) :=
  ⟨rfl, c8_constants_append_only cstRemote cstArchive cstMerged rfl⟩

/-- Claim C2 counterexample: for a user with an empty note sequence,
`get_usernotes` — the render operation — returns the empty string, not the
literal `"No usernotes"`. -/
theorem c2_render_returns_empty_string :
    get_usernotes exCts [("alice", [])] "sub" exFmt "alice" = .ok "" ∧
    (Except.ok "" : Except RenderError String) ≠ .ok "No usernotes" := by
  refine ⟨rfl, fun hc => absurd (Except.ok.inj hc) (by decide)⟩

/-- Claim C2 (amended): when the requested user is absent from the decoded
notes mapping or has an empty note sequence, `get_usernotes` returns the
empty string, and it is `handle_comment` that substitutes the literal
`"No usernotes"`, so the message body it sends is exactly that literal. -/
theorem c2_empty_notes_message (cts : Constants) (notes : List (String × List Note))
    (sub : String) (fmt : Int → String) (user : String)
    (h : alookup notes user = none ∨ alookup notes user = some []) :
    get_usernotes cts notes sub fmt user = .ok "" ∧
    handle_comment_body cts notes sub fmt user = .ok "No usernotes" := by
  have hg : get_usernotes cts notes sub fmt user = .ok "" := by
    rcases h with h | h
    · unfold get_usernotes
      simp only [h]
      rfl
    · unfold get_usernotes
      simp only [h, rowsLoop]
      rfl
  refine ⟨hg, ?_⟩
  unfold handle_comment_body
  simp [hg]

/-- Claim C2 witness: a user present with zero notes renders to the empty
string and the comment handler messages `"No usernotes"`. -/
theorem c2_empty_notes_witness :
    (alookup [("alice", ([] : List Note))] "alice" = none ∨
     alookup [("alice", ([] : List Note))] "alice" = some []) ∧
    (get_usernotes exCts [("alice", [])] "s" exFmt "alice" = .ok "" ∧
     handle_comment_body exCts [("alice", [])] "s" exFmt "alice" = .ok "No usernotes") :=
  ⟨Or.inr rfl,
   c2_empty_notes_message exCts [("alice", [])] "s" exFmt "alice" (Or.inr rfl)⟩

/-- Claim C9: the rendered link is derived from the comma-separated field
count of `linkToken`: two fields give a submission link, three fields a
comment link, one field a bare timestamp — for every note at any loop
position (any left-over `note_link` value), and shown in the user's
rendered table row. -/
theorem c9_link_derivation (cts : Constants) (notes : List (String × List Note))
    (sub : String) (fmt : Int → String) (user : String) (note : Note)
    (modName reason f0 tid cid : String)
    (hu : alookup notes user = some [note])
    (hm : pyIndex cts.users note.m = some modName)
    (hw : pyIndex cts.warnings note.w = some reason) :
    (pySplit note.l = [f0, tid] →
      (∀ prev, formatNote cts sub fmt prev note =
        .ok (linkedRow modName (fmt note.t) (submissionLink sub tid) reason note.n,
          some (submissionLink sub tid))) ∧
      get_usernotes cts notes sub fmt user = .ok (String.intercalate "\n"
        ["Mod | Time | Reason | Note", "- | - | - | - | -",
         linkedRow modName (fmt note.t) (submissionLink sub tid) reason note.n])) ∧
    (pySplit note.l = [f0, tid, cid] →
      (∀ prev, formatNote cts sub fmt prev note =
        .ok (linkedRow modName (fmt note.t) (commentLink sub tid cid) reason note.n,
          some (commentLink sub tid cid))) ∧
      get_usernotes cts notes sub fmt user = .ok (String.intercalate "\n"
        ["Mod | Time | Reason | Note", "- | - | - | - | -",
         linkedRow modName (fmt note.t) (commentLink sub tid cid) reason note.n])) ∧
    (pySplit note.l = [f0] →
      (∀ prev, formatNote cts sub fmt prev note =
        .ok (bareRow modName (fmt note.t) reason note.n, some "")) ∧
      get_usernotes cts notes sub fmt user = .ok (String.intercalate "\n"
        ["Mod | Time | Reason | Note", "- | - | - | - | -",
         bareRow modName (fmt note.t) reason note.n])) := by
  refine ⟨?_, ?_, ?_⟩ <;> intro hs
  · have hfn : ∀ prev, formatNote cts sub fmt prev note =
        .ok (linkedRow modName (fmt note.t) (submissionLink sub tid) reason note.n,
          some (submissionLink sub tid)) := by
      intro prev
      unfold formatNote
      simp only [hm, hw, hs]
      rw [if_neg (submissionLink_ne_empty sub tid)]
    refine ⟨hfn, ?_⟩
    unfold get_usernotes
    simp only [hu, rowsLoop, hfn none, List.nil_append]
    rfl
  · have hfn : ∀ prev, formatNote cts sub fmt prev note =
        .ok (linkedRow modName (fmt note.t) (commentLink sub tid cid) reason note.n,
          some (commentLink sub tid cid)) := by
      intro prev
      unfold formatNote
      simp only [hm, hw, hs]
      rw [if_neg (commentLink_ne_empty sub tid cid)]
    refine ⟨hfn, ?_⟩
    unfold get_usernotes
    simp only [hu, rowsLoop, hfn none, List.nil_append]
    rfl
  · have hfn : ∀ prev, formatNote cts sub fmt prev note =
        .ok (bareRow modName (fmt note.t) reason note.n, some "") := by
      intro prev
      unfold formatNote
      simp only [hm, hw, hs]
      simp
    refine ⟨hfn, ?_⟩
    unfold get_usernotes
    simp only [hu, rowsLoop, hfn none, List.nil_append]
    rfl

/-- A note whose link token has two fields, for the C9 witness. -/
def linkNote : Note := ⟨0, 5, 0, "txt", "0,abc123"⟩

/-- Claim C9 witness: a note with `linkToken = "0,abc123"` renders as a
submission link row under the table header. -/
theorem c9_link_derivation_witness :
    alookup [("u", [linkNote])] "u" = some [linkNote] ∧
    pyIndex exCts.users linkNote.m = some "m" ∧
    pyIndex exCts.warnings linkNote.w = some "w" ∧
    ((pySplit linkNote.l = ["0", "abc123"] →
      (∀ prev, formatNote exCts "s" exFmt prev linkNote =
        .ok (linkedRow "m" (exFmt linkNote.t) (submissionLink "s" "abc123") "w" linkNote.n,
          some (submissionLink "s" "abc123"))) ∧
      get_usernotes exCts [("u", [linkNote])] "s" exFmt "u" = .ok (String.intercalate "\n"
        ["Mod | Time | Reason | Note", "- | - | - | - | -",
         linkedRow "m" (exFmt linkNote.t) (submissionLink "s" "abc123") "w" linkNote.n])) ∧
     (pySplit linkNote.l = ["0", "abc123", "zz"] →
      (∀ prev, formatNote exCts "s" exFmt prev linkNote =
        .ok (linkedRow "m" (exFmt linkNote.t) (commentLink "s" "abc123" "zz") "w" linkNote.n,
          some (commentLink "s" "abc123" "zz"))) ∧
      get_usernotes exCts [("u", [linkNote])] "s" exFmt "u" = .ok (String.intercalate "\n"
        ["Mod | Time | Reason | Note", "- | - | - | - | -",
         linkedRow "m" (exFmt linkNote.t) (commentLink "s" "abc123" "zz") "w" linkNote.n])) ∧
     (pySplit linkNote.l = ["0"] →
      (∀ prev, formatNote exCts "s" exFmt prev linkNote =
        .ok (bareRow "m" (exFmt linkNote.t) "w" linkNote.n, some "")) ∧
      get_usernotes exCts [("u", [linkNote])] "s" exFmt "u" = .ok (String.intercalate "\n"
        ["Mod | Time | Reason | Note", "- | - | - | - | -",
         bareRow "m" (exFmt linkNote.t) "w" linkNote.n]))) := by
  have h := c9_link_derivation exCts [("u", [linkNote])] "s" exFmt "u" linkNote
    "m" "w" "0" "abc123" "zz" rfl (by decide) (by decide)
  exact ⟨rfl, by decide, by decide, h⟩

/-- A note whose link token has four fields, for the C10 witness. -/
def staleNote : Note := ⟨0, 5, 0, "txt", "0,a,b,c"⟩

/-- Claim C10: a link token with four or more comma-separated fields hits
no branch of the link derivation, so `note_link` keeps its previous value:
on the first note of the user the render fails with the unbound-local
error, and on a later note the stale value is silently reused — rendered
as a link when nonempty and as a bare timestamp when it is the empty
string left by an earlier linkless note. -/
theorem c10_stale_link_reuse (cts : Constants) (notes : List (String × List Note))
    (sub : String) (fmt : Int → String) (user : String) (note : Note) (rest : List Note)
    (modName reason : String)
    (h4 : 4 ≤ (pySplit note.l).length)
    (hm : pyIndex cts.users note.m = some modName)
    (hw : pyIndex cts.warnings note.w = some reason) :
    (alookup notes user = some (note :: rest) →
      get_usernotes cts notes sub fmt user = .error .unboundLocalError) ∧
    (∀ link, link ≠ "" → formatNote cts sub fmt (some link) note =
      .ok (linkedRow modName (fmt note.t) link reason note.n, some link)) ∧
    (formatNote cts sub fmt (some "") note =
      .ok (bareRow modName (fmt note.t) reason note.n, some "")) := by
  obtain ⟨p0, p1, p2, p3, tl, hs⟩ :
      ∃ p0 p1 p2 p3 tl, pySplit note.l = p0 :: p1 :: p2 :: p3 :: tl := by
    rcases hsp : pySplit note.l with _ | ⟨a, _ | ⟨b, _ | ⟨c, _ | ⟨d, tl⟩⟩⟩⟩
    · rw [hsp] at h4; simp at h4
    · rw [hsp] at h4; simp at h4
    · rw [hsp] at h4; simp at h4
    · rw [hsp] at h4; simp at h4
    · exact ⟨a, b, c, d, tl, rfl⟩
  have hnone : formatNote cts sub fmt none note = .error .unboundLocalError := by
    unfold formatNote
    simp only [hm, hw, hs]
  have hsome : ∀ prev, formatNote cts sub fmt (some prev) note =
      if prev = "" then .ok (bareRow modName (fmt note.t) reason note.n, some prev)
      else .ok (linkedRow modName (fmt note.t) prev reason note.n, some prev) := by
    intro prev
    unfold formatNote
    simp only [hm, hw, hs]
  refine ⟨?_, ?_, ?_⟩
  · intro hu
    unfold get_usernotes
    simp only [hu, rowsLoop, hnone]
  · intro link hlink
    rw [hsome link, if_neg hlink]
  · rw [hsome "", if_pos rfl]

/-- Claim C10 witness: `linkToken = "0,a,b,c"` as the user's first note
makes rendering fail with the unbound-local error; as a later note it
reuses whatever link value the previous note left behind. -/
theorem c10_stale_link_witness :
    4 ≤ (pySplit staleNote.l).length ∧
    pyIndex exCts.users staleNote.m = some "m" ∧
    pyIndex exCts.warnings staleNote.w = some "w" ∧
    ((alookup [("u", [staleNote])] "u" = some (staleNote :: []) →
      get_usernotes exCts [("u", [staleNote])] "s" exFmt "u" =
        .error .unboundLocalError) ∧
     (∀ link, link ≠ "" → formatNote exCts "s" exFmt (some link) staleNote =
       .ok (linkedRow "m" (exFmt staleNote.t) link "w" staleNote.n, some link)) ∧
     (formatNote exCts "s" exFmt (some "") staleNote =
       .ok (bareRow "m" (exFmt staleNote.t) "w" staleNote.n, some ""))) := by
  have h := c10_stale_link_reuse exCts [("u", [staleNote])] "s" exFmt "u" staleNote []
    "m" "w" (by decide) (by decide) (by decide)
  exact ⟨by decide, by decide, by decide, h⟩

end Fashbot
